import Mathlib

/-!
Verification of the task-manager CLI library (`lib/models.py`, `lib/cli_tool.py`).

The embedding is shallow and purely functional:

* a Python object becomes an immutable Lean structure, and an in-place
  mutation becomes a function returning the updated value;
* the global dictionary `users` (a Python `dict`, which preserves insertion
  order) becomes an association list `Registry`; dictionary assignment
  `users[k] = v` replaces the first entry with key `k` in place, or appends
  a new entry at the end, exactly as a Python dict does;
* console output is modelled as a `List String`, one element per `print`
  call, holding exactly the string passed to `print` (so an f-string that
  begins with a literal newline keeps that newline in the element).
-/

namespace TaskCLI

/-- Embeds the class `Task` of `lib/models.py`: a title and a completion
flag, `completed` defaulting to false in `__init__`. -/
structure Task where
  title : String
  completed : Bool
deriving DecidableEq, Repr

/-- Embeds `Task.__init__(self, title)`: stores the title verbatim and sets
`completed = False`. -/
def Task.init (title : String) : Task :=
  ⟨title, false⟩

/-- Embeds `Task.complete(self)`: sets `completed = True` and prints the
confirmation line. Returns the updated task and the printed string. -/
def Task.complete (t : Task) : Task × String :=
  (⟨t.title, true⟩, "✅ Task '" ++ t.title ++ "' completed.")

/-- Embeds `Task.__str__(self)`: a status glyph followed by the title. -/
def Task.render (t : Task) : String :=
  (if t.completed then "✅" else "⭕") ++ " " ++ t.title

/-- Embeds the class `User` of `lib/models.py`: a name and an ordered list
of tasks, empty in `__init__`. -/
structure User where
  name : String
  tasks : List Task
deriving DecidableEq, Repr

/-- Embeds `User.__init__(self, name)`: stores the name, task list empty. -/
def User.init (name : String) : User :=
  ⟨name, []⟩

/-- Embeds `User.add_task(self, task)`: appends the task to the list and
prints the confirmation line (which uses `task.title` and `self.name`).
Returns the updated user and the printed string. -/
def User.add_task (u : User) (t : Task) : User × String :=
  (⟨u.name, u.tasks ++ [t]⟩,
   "📌 Task '" ++ t.title ++ "' added to " ++ u.name ++ ".")

/-- The loop of `User.get_task_by_title`: scan the list front to back and
return the first task whose title equals the query, else `none`. -/
def findTask : List Task → String → Option Task
  | [], _ => none
  | t :: rest, title => if t.title = title then some t else findTask rest title

/-- Embeds `User.get_task_by_title(self, title)`. -/
def User.get_task_by_title (u : User) (title : String) : Option Task :=
  findTask u.tasks title

/-- The loop of `User.list_tasks`: `for i, task in enumerate(self.tasks, 1):
print(f"  {i}. {task}")`, with `i` starting at the given index. -/
def renderLines : List Task → Nat → List String
  | [], _ => []
  | t :: rest, i => ("  " ++ toString i ++ ". " ++ t.render) :: renderLines rest (i + 1)

/-- Embeds `User.list_tasks(self)`: the printed lines, one list element per
`print` call. The non-empty branch prints a header f-string that starts
with a literal newline. -/
def User.list_tasks (u : User) : List String :=
  if u.tasks.isEmpty then [u.name ++ " has no tasks."]
  else ("\n" ++ u.name ++ "'s tasks:") :: renderLines u.tasks 1

/-- Embeds `User.__str__(self)`: name and task count. -/
def User.render (u : User) : String :=
  "User: " ++ u.name ++ " (" ++ toString u.tasks.length ++ " tasks)"

/-- The global dictionary `users` of `lib/cli_tool.py`, as an association
list in insertion order (Python dicts preserve insertion order). -/
abbrev Registry := List (String × User)

/-- Embeds `users.get(name)`: the value at the first entry whose key equals
`name`, or `none`. -/
def getUser : Registry → String → Option User
  | [], _ => none
  | (k, u) :: rest, name => if k = name then some u else getUser rest name

/-- Embeds dictionary assignment `users[name] = u` (and, equivalently, an
in-place mutation of the stored object): replace the first entry keyed
`name`, or append a new entry at the end. -/
def setUser : Registry → String → User → Registry
  | [], name, u => [(name, u)]
  | (k, v) :: rest, name, u =>
    if k = name then (k, u) :: rest else (k, v) :: setUser rest name u

/-- The effect on the task list of calling `complete()` on the task object
returned by `get_task_by_title`: that object is the first title match, and
the mutation flips its `completed` flag in place. -/
def completeFirst : List Task → String → List Task
  | [], _ => []
  | t :: rest, title =>
    if t.title = title then ⟨t.title, true⟩ :: rest
    else t :: completeFirst rest title

/-- Embeds `add_task(args)` of `lib/cli_tool.py`: get or create the user,
construct `Task(args.title)`, append it (which prints the confirmation).
Returns the new registry and the printed output. -/
def add_task (r : Registry) (user title : String) : Registry × List String :=
  let u := match getUser r user with
    | some u => u
    | none => User.init user
  let p := u.add_task (Task.init title)
  (setUser r user p.1, [p.2])

/-- Embeds `complete_task(args)` of `lib/cli_tool.py`: user lookup, task
lookup by title, the already-completed check, and otherwise
`task.complete()` which mutates the found task and prints. -/
def complete_task (r : Registry) (user title : String) : Registry × List String :=
  match getUser r user with
  | none => (r, ["❌ User '" ++ user ++ "' not found."])
  | some u =>
    match u.get_task_by_title title with
    | none => (r, ["❌ Task '" ++ title ++ "' not found for " ++ user ++ "."])
    | some t =>
      if t.completed then
        (r, ["ℹ️  Task '" ++ title ++ "' is already completed."])
      else
        (setUser r user ⟨u.name, completeFirst u.tasks title⟩, [(Task.complete t).2])

/-- Embeds `list_tasks(args)` of `lib/cli_tool.py`: user lookup, then
delegate to `User.list_tasks`. -/
def list_tasks (r : Registry) (user : String) : Registry × List String :=
  match getUser r user with
  | none => (r, ["❌ User '" ++ user ++ "' not found."])
  | some u => (r, u.list_tasks)

/-- Embeds `list_users(args)` of `lib/cli_tool.py`: if the registry is
empty print `No users found.`, else a header (an f-string starting with a
literal newline) and one bulleted summary line per user, in dictionary
iteration order, i.e. insertion order. -/
def list_users (r : Registry) : Registry × List String :=
  if r.isEmpty then (r, ["No users found."])
  else (r, "\nAll users:" :: r.map (fun p => "  • " ++ p.2.render))

/-- The four dispatcher commands of the CLI surface. -/
inductive Cmd where
  | addTask (user title : String)
  | completeTask (user title : String)
  | listTasks (user : String)
  | listUsers
deriving DecidableEq, Repr

/-- One dispatcher step: route a command to its handler. -/
def step (r : Registry) : Cmd → Registry × List String
  | Cmd.addTask u t => add_task r u t
  | Cmd.completeTask u t => complete_task r u t
  | Cmd.listTasks u => list_tasks r u
  | Cmd.listUsers => list_users r

/-- The registry reached by running a command sequence from the empty
registry the process starts with. -/
def run (cs : List Cmd) : Registry :=
  cs.foldl (fun r c => (step r c).1) []

/-- Well-formedness of a registry: every stored user's `name` equals its
dictionary key. Every state the dispatcher can build satisfies this, since
a missing user is created as `User(args.user)` and stored at `args.user`,
and no operation changes a name. -/
def Wf (r : Registry) : Prop :=
  ∀ p ∈ r, p.2.name = p.1

/-! ### Lemmas about registry lookup and assignment -/

theorem getUser_mem {r : Registry} {k : String} {u : User}
    (h : getUser r k = some u) : (k, u) ∈ r := by
  induction r with
  | nil => simp [getUser] at h
  | cons p rest ih =>
    obtain ⟨k', v⟩ := p
    by_cases hk : k' = k
    · subst hk
      simp [getUser] at h
      subst h
      exact List.mem_cons_self _ _
    · simp [getUser, hk] at h
      exact List.mem_cons_of_mem _ (ih h)

theorem getUser_eq_none {r : Registry} {k : String} :
    getUser r k = none ↔ ∀ p ∈ r, p.1 ≠ k := by
  induction r with
  | nil => simp [getUser]
  | cons p rest ih =>
    obtain ⟨k', v⟩ := p
    by_cases hk : k' = k
    · subst hk
      simp [getUser]
    · simp [getUser, hk, ih]

theorem getUser_setUser_self (r : Registry) (k : String) (u : User) :
    getUser (setUser r k u) k = some u := by
  induction r with
  | nil => simp [setUser, getUser]
  | cons p rest ih =>
    obtain ⟨k', v⟩ := p
    by_cases hk : k' = k
    · subst hk
      simp [setUser, getUser]
    · simp [setUser, getUser, hk, ih]

theorem getUser_setUser_ne (r : Registry) (k k' : String) (u : User)
    (h : k' ≠ k) : getUser (setUser r k u) k' = getUser r k' := by
  have hne : k ≠ k' := Ne.symm h
  induction r with
  | nil => simp [setUser, getUser, hne]
  | cons p rest ih =>
    obtain ⟨k₀, v⟩ := p
    by_cases hk : k₀ = k
    · subst hk
      simp [setUser, getUser, hne]
    · simp [setUser, getUser, hk, ih]

theorem setUser_keys_of_mem {r : Registry} {k : String} {v : User}
    (h : getUser r k = some v) (u : User) :
    (setUser r k u).map Prod.fst = r.map Prod.fst := by
  induction r with
  | nil => simp [getUser] at h
  | cons p rest ih =>
    obtain ⟨k', w⟩ := p
    by_cases hk : k' = k
    · subst hk
      simp [setUser]
    · simp [getUser, hk] at h
      simp [setUser, hk, ih h]

theorem setUser_keys_of_none {r : Registry} {k : String}
    (h : getUser r k = none) (u : User) :
    (setUser r k u).map Prod.fst = r.map Prod.fst ++ [k] := by
  induction r with
  | nil => simp [setUser]
  | cons p rest ih =>
    obtain ⟨k', w⟩ := p
    by_cases hk : k' = k
    · subst hk
      simp [getUser] at h
    · simp [getUser, hk] at h
      simp [setUser, hk, ih h]

theorem Wf_getUser {r : Registry} {k : String} {u : User}
    (hwf : Wf r) (h : getUser r k = some u) : u.name = k :=
  hwf (k, u) (getUser_mem h)

/-! ### Lemmas about task lookup and completion -/

theorem findTask_eq_none {l : List Task} {title : String} :
    findTask l title = none ↔ ∀ t ∈ l, t.title ≠ title := by
  induction l with
  | nil => simp [findTask]
  | cons t rest ih =>
    by_cases ht : t.title = title
    · simp [findTask, ht]
    · simp [findTask, ht, ih]

theorem findTask_title {l : List Task} {title : String} {t : Task}
    (h : findTask l title = some t) : t.title = title := by
  induction l with
  | nil => simp [findTask] at h
  | cons t' rest ih =>
    by_cases ht : t'.title = title
    · simp [findTask, ht] at h
      subst h
      exact ht
    · simp [findTask, ht] at h
      exact ih h

theorem findTask_append_first {pre post : List Task} {t : Task} {title : String}
    (hpre : ∀ t' ∈ pre, t'.title ≠ title) (ht : t.title = title) :
    findTask (pre ++ t :: post) title = some t := by
  induction pre with
  | nil => simp [findTask, ht]
  | cons t' rest ih =>
    have h1 : t'.title ≠ title := hpre t' (List.mem_cons_self _ _)
    simp only [List.cons_append, findTask, if_neg h1]
    exact ih fun x hx => hpre x (List.mem_cons_of_mem _ hx)

theorem findTask_split {l : List Task} {title : String} {t : Task}
    (h : findTask l title = some t) :
    ∃ pre post, l = pre ++ t :: post ∧ ∀ t' ∈ pre, t'.title ≠ title := by
  induction l with
  | nil => simp [findTask] at h
  | cons t' rest ih =>
    by_cases ht : t'.title = title
    · simp [findTask, ht] at h
      subst h
      exact ⟨[], rest, rfl, by simp⟩
    · simp [findTask, ht] at h
      obtain ⟨pre, post, heq, hpre⟩ := ih h
      refine ⟨t' :: pre, post, by simp [heq], ?_⟩
      intro x hx
      rcases List.mem_cons.mp hx with hx | hx
      · subst hx; exact ht
      · exact hpre x hx

theorem completeFirst_append {pre post : List Task} {t : Task} {title : String}
    (hpre : ∀ t' ∈ pre, t'.title ≠ title) (ht : t.title = title) :
    completeFirst (pre ++ t :: post) title = pre ++ ⟨title, true⟩ :: post := by
  induction pre with
  | nil => simp [completeFirst, ht]
  | cons t' rest ih =>
    have h1 : t'.title ≠ title := hpre t' (List.mem_cons_self _ _)
    simp only [List.cons_append, completeFirst, if_neg h1, List.cons.injEq, true_and]
    exact ih fun x hx => hpre x (List.mem_cons_of_mem _ hx)

theorem completeFirst_getElem? {l : List Task} {title : String} {i : Nat} {t : Task}
    (h : l[i]? = some t) :
    ∃ t', (completeFirst l title)[i]? = some t' ∧ t'.title = t.title := by
  induction l generalizing i with
  | nil => simp at h
  | cons t' rest ih =>
    cases i with
    | zero =>
      simp at h
      subst h
      by_cases ht : t'.title = title
      · exact ⟨⟨t'.title, true⟩, by simp [completeFirst, ht], rfl⟩
      · exact ⟨t', by simp [completeFirst, ht], rfl⟩
    | succ n =>
      simp at h
      by_cases ht : t'.title = title
      · exact ⟨t, by simp [completeFirst, ht, h], rfl⟩
      · obtain ⟨t'', h1, h2⟩ := ih h
        exact ⟨t'', by simpa [completeFirst, ht] using h1, h2⟩

/-! ### Lemmas about rendering -/

theorem renderLines_length (l : List Task) (i : Nat) :
    (renderLines l i).length = l.length := by
  induction l generalizing i with
  | nil => rfl
  | cons t rest ih => simp [renderLines, ih]

theorem renderLines_getElem? {l : List Task} {j : Nat} {t : Task} (i : Nat)
    (h : l[j]? = some t) :
    (renderLines l i)[j]? = some ("  " ++ toString (i + j) ++ ". " ++ t.render) := by
  induction l generalizing i j with
  | nil => simp at h
  | cons t' rest ih =>
    cases j with
    | zero =>
      simp at h
      subst h
      simp [renderLines]
    | succ n =>
      simp at h
      have := ih (i + 1) h
      simpa [renderLines, Nat.add_assoc, Nat.add_comm 1 n] using this

/-! ### Unfolding lemmas for the dispatcher handlers -/

theorem add_task_of_some {r : Registry} {user : String} {u : User}
    (h : getUser r user = some u) (title : String) :
    add_task r user title =
      (setUser r user ⟨u.name, u.tasks ++ [Task.init title]⟩,
       ["📌 Task '" ++ title ++ "' added to " ++ u.name ++ "."]) := by
  simp [add_task, h, User.add_task, Task.init]

theorem add_task_of_none {r : Registry} {user : String}
    (h : getUser r user = none) (title : String) :
    add_task r user title =
      (setUser r user ⟨user, [Task.init title]⟩,
       ["📌 Task '" ++ title ++ "' added to " ++ user ++ "."]) := by
  simp [add_task, h, User.add_task, User.init, Task.init]

theorem complete_task_of_no_user {r : Registry} {user : String}
    (h : getUser r user = none) (title : String) :
    complete_task r user title = (r, ["❌ User '" ++ user ++ "' not found."]) := by
  simp [complete_task, h]

theorem complete_task_of_no_task {r : Registry} {user : String} {u : User}
    (hu : getUser r user = some u) {title : String}
    (ht : findTask u.tasks title = none) :
    complete_task r user title =
      (r, ["❌ Task '" ++ title ++ "' not found for " ++ user ++ "."]) := by
  simp [complete_task, hu, User.get_task_by_title, ht]

theorem complete_task_of_completed {r : Registry} {user : String} {u : User}
    (hu : getUser r user = some u) {title : String} {t : Task}
    (ht : findTask u.tasks title = some t) (hc : t.completed = true) :
    complete_task r user title =
      (r, ["ℹ️  Task '" ++ title ++ "' is already completed."]) := by
  simp [complete_task, hu, User.get_task_by_title, ht, hc]

theorem complete_task_of_incomplete {r : Registry} {user : String} {u : User}
    (hu : getUser r user = some u) {title : String} {t : Task}
    (ht : findTask u.tasks title = some t) (hc : t.completed = false) :
    complete_task r user title =
      (setUser r user ⟨u.name, completeFirst u.tasks title⟩,
       ["✅ Task '" ++ t.title ++ "' completed."]) := by
  simp [complete_task, hu, User.get_task_by_title, ht, hc, Task.complete]

theorem list_tasks_fst (r : Registry) (user : String) :
    (list_tasks r user).1 = r := by
  unfold list_tasks
  cases getUser r user <;> rfl

theorem list_users_fst (r : Registry) : (list_users r).1 = r := by
  unfold list_users
  split <;> rfl

/-! ### Claim theorems -/

/-- C1: for every registry state and every pair of strings (user, title),
the complete-task operation behaves exactly as: if the username is not a
key of the registry, it prints the user-not-found line and stops; else if
the user has no task with that title, it prints the task-not-found line
and stops; else if the found task is already completed, it prints the
already-completed line and leaves everything unchanged; else it sets the
found task's completed flag to true (the first title match, in place) and
prints the completion line. -/
theorem complete_task_spec (r : Registry) (user title : String) :
    (getUser r user = none →
      complete_task r user title = (r, ["❌ User '" ++ user ++ "' not found."])) ∧
    (∀ u, getUser r user = some u → findTask u.tasks title = none →
      complete_task r user title =
        (r, ["❌ Task '" ++ title ++ "' not found for " ++ user ++ "."])) ∧
    (∀ u t, getUser r user = some u → findTask u.tasks title = some t →
      t.completed = true →
      complete_task r user title =
        (r, ["ℹ️  Task '" ++ title ++ "' is already completed."])) ∧
    (∀ u t, getUser r user = some u → findTask u.tasks title = some t →
      t.completed = false →
      (complete_task r user title).2 = ["✅ Task '" ++ title ++ "' completed."] ∧
      ∃ pre post, u.tasks = pre ++ t :: post ∧ (∀ t' ∈ pre, t'.title ≠ title) ∧
        (complete_task r user title).1 =
          setUser r user ⟨u.name, pre ++ ⟨title, true⟩ :: post⟩) := by
  refine ⟨fun h => complete_task_of_no_user h title,
    fun u hu ht => complete_task_of_no_task hu ht,
    fun u t hu ht hc => complete_task_of_completed hu ht hc,
    fun u t hu ht hc => ?_⟩
  have htitle : t.title = title := findTask_title ht
  obtain ⟨pre, post, heq, hpre⟩ := findTask_split ht
  have hcf : completeFirst u.tasks title = pre ++ ⟨title, true⟩ :: post := by
    rw [heq]
    exact completeFirst_append hpre htitle
  rw [complete_task_of_incomplete hu ht hc]
  exact ⟨by rw [htitle], pre, post, heq, hpre, by rw [hcf]⟩

/-- Witness for C1: in a registry where Alice owns the incomplete task "T",
completing "T" prints the completion line, and completing it in a registry
where it is already complete prints the already-completed line. -/
theorem complete_task_spec_witness :
    (complete_task [("Alice", (⟨"Alice", [⟨"T", false⟩]⟩ : User))] "Alice" "T").2 =
      ["✅ Task 'T' completed."] ∧
    complete_task [("Alice", (⟨"Alice", [⟨"T", true⟩]⟩ : User))] "Alice" "T" =
      ([("Alice", (⟨"Alice", [⟨"T", true⟩]⟩ : User))],
       ["ℹ️  Task 'T' is already completed."]) := by
  constructor
  · exact ((complete_task_spec [("Alice", ⟨"Alice", [⟨"T", false⟩]⟩)] "Alice" "T").2.2.2
      ⟨"Alice", [⟨"T", false⟩]⟩ ⟨"T", false⟩ rfl rfl rfl).1
  · exact (complete_task_spec [("Alice", ⟨"Alice", [⟨"T", true⟩]⟩)] "Alice" "T").2.2.1
      ⟨"Alice", [⟨"T", true⟩]⟩ ⟨"T", true⟩ rfl rfl rfl

/-- C4: invoking complete-task with a username that is not in the registry
leaves the entire registry unchanged. -/
theorem complete_task_missing_user_atomic (r : Registry) (user title : String)
    (h : getUser r user = none) :
    (complete_task r user title).1 = r := by
  rw [complete_task_of_no_user h title]

/-- Witness for C4: completing a task for the unknown user "X" in a
one-user registry leaves that registry unchanged. -/
theorem complete_task_missing_user_atomic_witness :
    (complete_task [("Alice", (⟨"Alice", [⟨"T", false⟩]⟩ : User))] "X" "T").1 =
      [("Alice", (⟨"Alice", [⟨"T", false⟩]⟩ : User))] :=
  complete_task_missing_user_atomic [("Alice", ⟨"Alice", [⟨"T", false⟩]⟩)] "X" "T" rfl

/-- C5: `get_task_by_title` returns the first task in add order whose title
exactly equals the query, and returns `none` (a not-found signal, never an
exception — the embedding is a total function into `Option`) when no task
matches; with two identically titled tasks it returns the one added
first. -/
theorem get_task_by_title_spec (u : User) (title : String) :
    (u.get_task_by_title title = none ↔ ∀ t ∈ u.tasks, t.title ≠ title) ∧
    (∀ t, u.get_task_by_title title = some t → t.title = title) ∧
    (∀ pre t post, u.tasks = pre ++ t :: post → t.title = title →
      (∀ t' ∈ pre, t'.title ≠ title) →
      u.get_task_by_title title = some t) := by
  refine ⟨findTask_eq_none, fun t h => findTask_title h, ?_⟩
  intro pre t post heq ht hpre
  unfold User.get_task_by_title
  rw [heq]
  exact findTask_append_first hpre ht

/-- Witness for C5: a user holding two tasks titled "A" (the first
incomplete, the second complete): lookup of "A" returns the first one
added, and lookup of a missing title returns `none`. -/
theorem get_task_by_title_spec_witness :
    User.get_task_by_title ⟨"U", [⟨"A", false⟩, ⟨"A", true⟩]⟩ "A" =
      some ⟨"A", false⟩ ∧
    User.get_task_by_title ⟨"U", [⟨"A", false⟩, ⟨"A", true⟩]⟩ "B" = none := by
  constructor
  · exact (get_task_by_title_spec ⟨"U", [⟨"A", false⟩, ⟨"A", true⟩]⟩ "A").2.2
      [] ⟨"A", false⟩ [⟨"A", true⟩] rfl rfl (by simp)
  · exact (get_task_by_title_spec ⟨"U", [⟨"A", false⟩, ⟨"A", true⟩]⟩ "B").1.mpr
      (by decide)

/-- C6: `complete()` establishes `completed = true`, keeps the title, and
is idempotent at the data level: a second call leaves the task's state
(title and completed flag) exactly as after the first call — indeed the
whole result, printed line included, is identical. -/
theorem Task_complete_idempotent (t : Task) :
    (Task.complete t).1.completed = true ∧
    (Task.complete t).1.title = t.title ∧
    Task.complete (Task.complete t).1 = Task.complete t :=
  ⟨rfl, rfl, rfl⟩

/-- C2: on every well-formed registry state (stored name = key, which holds
in every reachable state) the add-task operation always succeeds: it prints
the confirmation line, and afterwards the registry holds a user keyed by
the username — created fresh if absent, the stored one reused if present —
whose task list is the previous list with one new incomplete task of the
given title appended at the end. -/
theorem add_task_spec (r : Registry) (user title : String) (hwf : Wf r) :
    (add_task r user title).2 =
      ["📌 Task '" ++ title ++ "' added to " ++ user ++ "."] ∧
    (∀ u, getUser r user = some u →
      getUser (add_task r user title).1 user =
        some ⟨user, u.tasks ++ [Task.init title]⟩) ∧
    (getUser r user = none →
      getUser (add_task r user title).1 user = some ⟨user, [Task.init title]⟩) := by
  cases hget : getUser r user with
  | none =>
    rw [add_task_of_none hget title]
    refine ⟨rfl, ?_, ?_⟩
    · intro u hu
      cases hu
    · intro _
      exact getUser_setUser_self r user _
  | some u =>
    have hname : u.name = user := Wf_getUser hwf hget
    rw [add_task_of_some hget title, hname]
    refine ⟨rfl, ?_, ?_⟩
    · intro v hv
      cases hv
      exact getUser_setUser_self r user _
    · intro h
      cases h

/-- Witness for C2 (Scenario A): on the empty registry,
add-task("Alice", "Write unit tests") prints the confirmation and leaves
Alice with one incomplete task of that title. -/
theorem add_task_spec_witness :
    (add_task [] "Alice" "Write unit tests").2 =
      ["📌 Task 'Write unit tests' added to Alice."] ∧
    getUser (add_task [] "Alice" "Write unit tests").1 "Alice" =
      some ⟨"Alice", [⟨"Write unit tests", false⟩]⟩ := by
  have h := add_task_spec [] "Alice" "Write unit tests" (by intro p hp; cases hp)
  exact ⟨h.1, h.2.2 rfl⟩

/-- C3: listing a user's tasks prints "<name> has no tasks." when the list
is empty; otherwise it prints the header line (the f-string begins with a
literal newline) followed by one line per task, 1-indexed in add order,
each line showing ✅ for a completed task and ⭕ for an incomplete one,
followed by the task's title. -/
theorem list_tasks_render_spec (u : User) :
    (u.tasks = [] → u.list_tasks = [u.name ++ " has no tasks."]) ∧
    (u.tasks ≠ [] →
      u.list_tasks.length = u.tasks.length + 1 ∧
      u.list_tasks[0]? = some ("\n" ++ u.name ++ "'s tasks:") ∧
      ∀ i t, u.tasks[i]? = some t →
        u.list_tasks[i + 1]? =
          some ("  " ++ toString (i + 1) ++ ". " ++
            ((if t.completed then "✅" else "⭕") ++ " " ++ t.title))) := by
  constructor
  · intro h
    simp [User.list_tasks, h]
  · intro h
    have hne : u.tasks.isEmpty = false := by
      cases htasks : u.tasks with
      | nil => exact absurd htasks h
      | cons a l => rfl
    unfold User.list_tasks
    rw [hne]
    simp only [Bool.false_eq_true, if_false]
    refine ⟨by simp [renderLines_length], by simp, fun i t ht => ?_⟩
    have hr := renderLines_getElem? (l := u.tasks) 1 ht
    simp only [List.getElem?_cons_succ]
    rw [hr, Nat.add_comm 1 i]
    rfl

/-- Witness for C3 (Scenario E): Alice with tasks "Write unit tests"
(incomplete) and "Review code" (complete) lists a header and the two lines
`  1. ⭕ Write unit tests` and `  2. ✅ Review code` in that order. -/
theorem list_tasks_render_spec_witness :
    User.list_tasks ⟨"Alice", [⟨"Write unit tests", false⟩, ⟨"Review code", true⟩]⟩ =
      ["\nAlice's tasks:", "  1. ⭕ Write unit tests", "  2. ✅ Review code"] ∧
    (User.list_tasks
      ⟨"Alice", [⟨"Write unit tests", false⟩, ⟨"Review code", true⟩]⟩)[1]? =
      some "  1. ⭕ Write unit tests" := by
  refine ⟨rfl, ?_⟩
  have h := ((list_tasks_render_spec
    ⟨"Alice", [⟨"Write unit tests", false⟩, ⟨"Review code", true⟩]⟩).2
      (by decide)).2.2 0 ⟨"Write unit tests", false⟩ rfl
  simpa using h

/-- C9 counterexample: task creation does not fail on an empty title. The
command add-task("Alice", "") succeeds — it prints the confirmation line —
and the reachable registry it builds holds a task whose title is the empty
string, refuting both halves of the claim. -/
theorem empty_title_task_reachable :
    (add_task [] "Alice" "").2 = ["📌 Task '' added to Alice."] ∧
    run [Cmd.addTask "Alice" ""] = [("Alice", ⟨"Alice", [⟨"", false⟩]⟩)] :=
  ⟨rfl, rfl⟩

/-- C9 amended: task creation never fails and performs no validation of the
title — for every registry, username and title, the empty title included,
add-task stores a task holding the given title verbatim with
completed = false at the end of the user's list. -/
theorem add_task_no_title_validation (r : Registry) (user title : String) :
    ∃ u, getUser (add_task r user title).1 user = some u ∧
      u.tasks.getLast? = some (Task.init title) := by
  cases hget : getUser r user with
  | none =>
    rw [add_task_of_none hget title]
    exact ⟨⟨user, [Task.init title]⟩, getUser_setUser_self r user _, rfl⟩
  | some u =>
    rw [add_task_of_some hget title]
    exact ⟨⟨u.name, u.tasks ++ [Task.init title]⟩, getUser_setUser_self r user _,
      by simp⟩

/-- C10: whenever the registry is non-empty, list-users prints the header
(an f-string beginning with a literal newline) and then one line
`  • User: <name> (<n> tasks)` per user, where n is that user's task
count, in the insertion order of the mapping; the registry itself is left
unchanged. -/
theorem list_users_spec (r : Registry) (h : r ≠ []) :
    (list_users r).2 =
      "\nAll users:" ::
        r.map (fun p =>
          "  • User: " ++ p.2.name ++ " (" ++ toString p.2.tasks.length ++ " tasks)") ∧
    (list_users r).1 = r := by
  have hne : r.isEmpty = false := by
    cases r with
    | nil => exact absurd rfl h
    | cons a l => rfl
  unfold list_users
  rw [hne]
  refine ⟨?_, rfl⟩
  simp only [Bool.false_eq_true, if_false]
  refine congrArg _ (List.map_congr_left fun p _ => ?_)
  unfold User.render
  simp only [← String.append_assoc]
  rfl

/-- Witness for C10: a two-user registry (Alice with one task, Bob with
none) lists the header and one summary line per user in insertion
order. -/
theorem getElem?_append_of_some {α : Type} {l₁ l₂ : List α} {i : Nat} {a : α}
    (h : l₁[i]? = some a) : (l₁ ++ l₂)[i]? = some a := by
  induction l₁ generalizing i with
  | nil => simp at h
  | cons x xs ih =>
    cases i with
    | zero => simpa using h
    | succ n =>
      simp at h
      simpa using ih h

/-- C7: every registry state maps each username to at most one user, and
each of the four dispatcher commands preserves this (`Nodup` of the key
list), never removes an entry (the old key list is a sublist of the new
one), and a command referencing an existing username reuses the stored
user — add-task on a known user changes no key and extends exactly that
user's list — rather than creating a second entry. -/
theorem registry_at_most_one_user (r : Registry) (c : Cmd)
    (h : (r.map Prod.fst).Nodup) :
    ((step r c).1.map Prod.fst).Nodup ∧
    List.Sublist (r.map Prod.fst) ((step r c).1.map Prod.fst) ∧
    (∀ user title u, c = Cmd.addTask user title → getUser r user = some u →
      (step r c).1.map Prod.fst = r.map Prod.fst ∧
      getUser (step r c).1 user = some ⟨u.name, u.tasks ++ [Task.init title]⟩) := by
  cases c with
  | addTask user title =>
    cases hget : getUser r user with
    | none =>
      have hkeys : (add_task r user title).1.map Prod.fst = r.map Prod.fst ++ [user] := by
        have h1 : (add_task r user title).1 = setUser r user ⟨user, [Task.init title]⟩ := by
          rw [add_task_of_none hget title]
        rw [h1]
        exact setUser_keys_of_none hget _
      have hnotin : user ∉ r.map Prod.fst := by
        intro hmem
        obtain ⟨p, hp, hfst⟩ := List.mem_map.mp hmem
        exact (getUser_eq_none.mp hget p hp) hfst
      refine ⟨?_, ?_, ?_⟩
      · show ((add_task r user title).1.map Prod.fst).Nodup
        rw [hkeys]
        simp [List.nodup_append, h, hnotin]
      · show List.Sublist _ ((add_task r user title).1.map Prod.fst)
        rw [hkeys]
        exact List.sublist_append_left _ _
      · intro user' title' u' hc hu
        cases hc
        rw [hget] at hu
        cases hu
    | some u =>
      have h1 : (add_task r user title).1 =
          setUser r user ⟨u.name, u.tasks ++ [Task.init title]⟩ := by
        rw [add_task_of_some hget title]
      have hkeys : (add_task r user title).1.map Prod.fst = r.map Prod.fst := by
        rw [h1]
        exact setUser_keys_of_mem hget _
      refine ⟨?_, ?_, ?_⟩
      · show ((add_task r user title).1.map Prod.fst).Nodup
        rw [hkeys]
        exact h
      · show List.Sublist _ ((add_task r user title).1.map Prod.fst)
        rw [hkeys]
      · intro user' title' u' hc hu
        cases hc
        rw [hget] at hu
        cases hu
        refine ⟨hkeys, ?_⟩
        show getUser (add_task r user title).1 user = _
        rw [h1]
        exact getUser_setUser_self r user _
  | completeTask user title =>
    have hkeys : (complete_task r user title).1.map Prod.fst = r.map Prod.fst := by
      cases hget : getUser r user with
      | none =>
        have h1 : (complete_task r user title).1 = r := by
          rw [complete_task_of_no_user hget title]
        rw [h1]
      | some u =>
        cases hft : findTask u.tasks title with
        | none =>
          have h1 : (complete_task r user title).1 = r := by
            rw [complete_task_of_no_task hget hft]
          rw [h1]
        | some t =>
          cases hcomp : t.completed with
          | true =>
            have h1 : (complete_task r user title).1 = r := by
              rw [complete_task_of_completed hget hft hcomp]
            rw [h1]
          | false =>
            have h1 : (complete_task r user title).1 =
                setUser r user ⟨u.name, completeFirst u.tasks title⟩ := by
              rw [complete_task_of_incomplete hget hft hcomp]
            rw [h1]
            exact setUser_keys_of_mem hget _
    refine ⟨?_, ?_, ?_⟩
    · show ((complete_task r user title).1.map Prod.fst).Nodup
      rw [hkeys]
      exact h
    · show List.Sublist _ ((complete_task r user title).1.map Prod.fst)
      rw [hkeys]
    · intro user' title' u' hc hu
      exact Cmd.noConfusion hc
  | listTasks user =>
    refine ⟨?_, ?_, ?_⟩
    · show ((list_tasks r user).1.map Prod.fst).Nodup
      rw [list_tasks_fst]
      exact h
    · show List.Sublist _ ((list_tasks r user).1.map Prod.fst)
      rw [list_tasks_fst]
    · intro user' title' u' hc hu
      exact Cmd.noConfusion hc
  | listUsers =>
    refine ⟨?_, ?_, ?_⟩
    · show ((list_users r).1.map Prod.fst).Nodup
      rw [list_users_fst]
      exact h
    · show List.Sublist _ ((list_users r).1.map Prod.fst)
      rw [list_users_fst]
    · intro user' title' u' hc hu
      exact Cmd.noConfusion hc

/-- Witness for C7: starting from the one-user registry holding Alice,
adding a task for the new user Bob keeps the key list duplicate-free, and
adding a task for the existing Alice reuses her entry, appending to her
list. -/
theorem registry_at_most_one_user_witness :
    ((step [("Alice", (⟨"Alice", [⟨"T", false⟩]⟩ : User))]
        (Cmd.addTask "Bob" "U")).1.map Prod.fst).Nodup ∧
    getUser (step [("Alice", (⟨"Alice", [⟨"T", false⟩]⟩ : User))]
        (Cmd.addTask "Alice" "U")).1 "Alice" =
      some ⟨"Alice", [⟨"T", false⟩, ⟨"U", false⟩]⟩ := by
  constructor
  · exact (registry_at_most_one_user [("Alice", ⟨"Alice", [⟨"T", false⟩]⟩)]
      (Cmd.addTask "Bob" "U") (by simp)).1
  · have h := ((registry_at_most_one_user [("Alice", ⟨"Alice", [⟨"T", false⟩]⟩)]
      (Cmd.addTask "Alice" "U") (by simp)).2.2 "Alice" "U"
      ⟨"Alice", [⟨"T", false⟩]⟩ rfl rfl).2
    simpa using h

/-- C8: a task's title never changes after construction: `complete` keeps
the title, and after any dispatcher command, every task an existing user
already held is still at its position with the same title. -/
theorem task_titles_never_change (r : Registry) (c : Cmd) (name : String)
    (u u' : User) (hu : getUser r name = some u)
    (hu' : getUser (step r c).1 name = some u')
    (i : Nat) (t : Task) (ht : u.tasks[i]? = some t) :
    (∀ tk : Task, (Task.complete tk).1.title = tk.title) ∧
    ∃ t', u'.tasks[i]? = some t' ∧ t'.title = t.title := by
  refine ⟨fun tk => rfl, ?_⟩
  cases c with
  | addTask user title =>
    by_cases hname : name = user
    · subst hname
      have h1 : (add_task r name title).1 =
          setUser r name ⟨u.name, u.tasks ++ [Task.init title]⟩ := by
        rw [add_task_of_some hu title]
      have h2 : getUser (step r (Cmd.addTask name title)).1 name =
          some ⟨u.name, u.tasks ++ [Task.init title]⟩ := by
        show getUser (add_task r name title).1 name = _
        rw [h1]
        exact getUser_setUser_self r name _
      rw [h2] at hu'
      cases hu'
      exact ⟨t, getElem?_append_of_some ht, rfl⟩
    · have h2 : getUser (step r (Cmd.addTask user title)).1 name = getUser r name := by
        show getUser (add_task r user title).1 name = _
        cases hget : getUser r user with
        | none =>
          have h1 : (add_task r user title).1 =
              setUser r user ⟨user, [Task.init title]⟩ := by
            rw [add_task_of_none hget title]
          rw [h1]
          exact getUser_setUser_ne r user name _ hname
        | some v =>
          have h1 : (add_task r user title).1 =
              setUser r user ⟨v.name, v.tasks ++ [Task.init title]⟩ := by
            rw [add_task_of_some hget title]
          rw [h1]
          exact getUser_setUser_ne r user name _ hname
      rw [h2, hu] at hu'
      cases hu'
      exact ⟨t, ht, rfl⟩
  | completeTask user title =>
    cases hget : getUser r user with
    | none =>
      have h1 : (step r (Cmd.completeTask user title)).1 = r := by
        show (complete_task r user title).1 = r
        rw [complete_task_of_no_user hget title]
      rw [h1, hu] at hu'
      cases hu'
      exact ⟨t, ht, rfl⟩
    | some v =>
      cases hft : findTask v.tasks title with
      | none =>
        have h1 : (step r (Cmd.completeTask user title)).1 = r := by
          show (complete_task r user title).1 = r
          rw [complete_task_of_no_task hget hft]
        rw [h1, hu] at hu'
        cases hu'
        exact ⟨t, ht, rfl⟩
      | some t0 =>
        cases hcomp : t0.completed with
        | true =>
          have h1 : (step r (Cmd.completeTask user title)).1 = r := by
            show (complete_task r user title).1 = r
            rw [complete_task_of_completed hget hft hcomp]
          rw [h1, hu] at hu'
          cases hu'
          exact ⟨t, ht, rfl⟩
        | false =>
          have h1 : (step r (Cmd.completeTask user title)).1 =
              setUser r user ⟨v.name, completeFirst v.tasks title⟩ := by
            show (complete_task r user title).1 = _
            rw [complete_task_of_incomplete hget hft hcomp]
          by_cases hname : name = user
          · subst hname
            rw [hget] at hu
            cases hu
            rw [h1, getUser_setUser_self] at hu'
            cases hu'
            exact completeFirst_getElem? ht
          · rw [h1, getUser_setUser_ne r user name _ hname, hu] at hu'
            cases hu'
            exact ⟨t, ht, rfl⟩
  | listTasks user =>
    have h1 : (step r (Cmd.listTasks user)).1 = r := list_tasks_fst r user
    rw [h1, hu] at hu'
    cases hu'
    exact ⟨t, ht, rfl⟩
  | listUsers =>
    have h1 : (step r Cmd.listUsers).1 = r := list_users_fst r
    rw [h1, hu] at hu'
    cases hu'
    exact ⟨t, ht, rfl⟩

/-- Witness for C8: completing Alice's task "T" leaves a task at position 0
whose title is still "T". -/
theorem task_titles_never_change_witness :
    ∃ t', (User.tasks ⟨"Alice", [⟨"T", true⟩]⟩)[0]? = some t' ∧
      t'.title = Task.title ⟨"T", false⟩ :=
  (task_titles_never_change [("Alice", ⟨"Alice", [⟨"T", false⟩]⟩)]
    (Cmd.completeTask "Alice" "T") "Alice" ⟨"Alice", [⟨"T", false⟩]⟩
    ⟨"Alice", [⟨"T", true⟩]⟩ (by decide) (by decide) 0 ⟨"T", false⟩ (by decide)).2

theorem list_users_spec_witness :
    (list_users [("Alice", (⟨"Alice", [⟨"T", false⟩]⟩ : User)),
      ("Bob", (⟨"Bob", []⟩ : User))]).2 =
      ["\nAll users:", "  • User: Alice (1 tasks)", "  • User: Bob (0 tasks)"] := by
  have h := (list_users_spec [("Alice", ⟨"Alice", [⟨"T", false⟩]⟩),
    ("Bob", ⟨"Bob", []⟩)] (by decide)).1
  simpa using h

end TaskCLI
